import Mathlib

/-!
Verification of the kerf init program (src/init/init.c): a minimal PID-1
supervisor.  We shallowly embed the pure content of the C functions over
`List Char` (C strings up to the terminating NUL) and explicit inputs for
the results of system calls (mount, mkdir, fork, waitpid).
-/

namespace Kerf

/-- The character code of a single quote (39). -/
def squote : Char := Char.ofNat 39

/-- The character code of a newline (10). -/
def nl : Char := Char.ofNat 10

/-- Constant `ENTRYPOINT_KEY`, the marker `kerf.entrypoint=` searched in the boot
command line (init.c:36). -/
def epKey : List Char := "kerf.entrypoint=".data

/-- Constant `CONSOLE_KEY`, the marker `console=` (init.c:37). -/
def consoleKey : List Char := "console=".data

/-- Model of C `strstr`: index of the first occurrence of `needle` in
`haystack`, or `none` (used at init.c:149 and init.c:206). -/
def findSubstrIdx (needle : List Char) : List Char → Option Nat
  | [] => if needle.isPrefixOf [] then some 0 else none
  | c :: t =>
    if needle.isPrefixOf (c :: t) then some 0
    else (findSubstrIdx needle t).map (· + 1)

/-- Model of C `strchr`: index of the first occurrence of character `c`,
or `none` (used at init.c:161). -/
def strchrIdx (c : Char) : List Char → Option Nat
  | [] => none
  | x :: t => if x = c then some 0 else (strchrIdx c t).map (· + 1)

/-- Error cases of `read_entrypoint` (init.c:129-188); the C function
returns -1 in all of them, after logging a distinguishing message. -/
inductive EpError where
  | notFound
  | malformed
  | empty
  | tooLong
deriving DecidableEq, Repr

/-- The final length checks of `read_entrypoint` (init.c:173-187): an
extracted value of length zero is `empty`, one that does not fit in a
buffer of `bufsize` bytes (length ≥ bufsize, NUL included) is `tooLong`,
otherwise the value is copied out. -/
def finishValue (v : List Char) (bufsize : Nat) : Except EpError (List Char) :=
  if v.length = 0 then .error .empty
  else if bufsize ≤ v.length then .error .tooLong
  else .ok v

/-- Function `read_entrypoint` (init.c:129-188), with the content of /proc/cmdline
(as read, NUL-terminated) abstracted into the `cmdline` argument: find
the first `kerf.entrypoint=`; if the next character is a double quote the
value runs to the next double quote (failing if there is none), otherwise
to the next space or newline; then apply the length checks. -/
def read_entrypoint (cmdline : List Char) (bufsize : Nat) :
    Except EpError (List Char) :=
  match findSubstrIdx epKey cmdline with
  | none => .error .notFound
  | some i =>
    let rest := cmdline.drop (i + epKey.length)
    if rest.head? = some '"' then
      match strchrIdx '"' rest.tail with
      | none => .error .malformed
      | some j => finishValue (rest.tail.take j) bufsize
    else
      finishValue (rest.takeWhile (fun c => !(c = ' ' || c = nl))) bufsize

/-- Function `read_console` (init.c:190-228): find the first `console=`, take the
value up to the next space, comma or newline, and on success return the
path `/dev/` ++ value; `none` models the C return -1. -/
def read_console (cmdline : List Char) (bufsize : Nat) :
    Option (List Char) :=
  match findSubstrIdx consoleKey cmdline with
  | none => none
  | some i =>
    let v := (cmdline.drop (i + consoleKey.length)).takeWhile
      (fun c => !(c = ' ' || c = ',' || c = nl))
    if v.length = 0 then none
    else if bufsize ≤ v.length then none
    else if bufsize ≤ v.length + 5 then none
    else some ("/dev/".data ++ v)

/-- Whitespace as `parse_args` sees it: space or tab (init.c:274,291). -/
def isWs (c : Char) : Bool := c = ' ' || c = Char.ofNat 9

/-- The inner loop of `parse_args` (init.c:283-303): scan one argument.
Returns the token content (with quote characters removed, as the C code
removes them in place with `memmove`) and the remaining input after the
consumed terminator.  `inQ`/`qc` model the `in_quote`/`quote_char`
variables. -/
def scan_token : List Char → Bool → Char → List Char × List Char
  | [], _, _ => ([], [])
  | c :: t, inQ, qc =>
    if inQ then
      if c = qc then scan_token t false qc
      else
        let r := scan_token t true qc
        (c :: r.1, r.2)
    else if c = '"' || c = squote then scan_token t true c
    else if isWs c then ([], t)
    else
      let r := scan_token t false qc
      (c :: r.1, r.2)

/-- The outer loop of `parse_args` (init.c:272-304): while input remains
and fewer than `slots` tokens have been produced, skip whitespace and
scan one token. -/
def parse_args_loop : List Char → Nat → List (List Char)
  | _, 0 => []
  | s, k + 1 =>
    match s.dropWhile isWs with
    | [] => []
    | c :: t =>
      let r := scan_token (c :: t) false (Char.ofNat 0)
      r.1 :: parse_args_loop r.2 k

/-- Function `parse_args` (init.c:265-308) as the list of tokens stored into
`argv[0..argc-1]`; the C loop runs while `argc < max_args - 1`. -/
def parse_args (s : List Char) (max_args : Nat) : List (List Char) :=
  parse_args_loop s (max_args - 1)

/-- The value `parse_args` returns: `argc`, the number of tokens. -/
def parse_args_count (s : List Char) (max_args : Nat) : Nat :=
  (parse_args s max_args).length

/-- The argument vector as written by `parse_args`: the tokens followed by
the NULL sentinel stored at `argv[argc]` (init.c:306). -/
def parse_argv (s : List Char) (max_args : Nat) :
    List (Option (List Char)) :=
  (parse_args s max_args).map some ++ [none]

/-- The raw value of the spec example
`kerf.entrypoint="/bin/sh -c 'echo hi'"`: the characters
`/bin/sh -c 'echo hi'` (single quotes included, outer double quotes
excluded). -/
def shValue : List Char :=
  "/bin/sh -c ".data ++ squote :: ("echo hi".data ++ [squote])

/-! ### Filesystem bootstrap (init.c:85-127) -/

/-- Error code `EBUSY` (filesystem already mounted). -/
def EBUSY : Nat := 16

/-- Error code `EEXIST` (directory already exists). -/
def EEXIST : Nat := 17

/-- Outcome of a `mount`/`mkdir` system call: success, or failure with the
resulting `errno`. -/
inductive SysResult where
  | ok
  | err (errno : Nat)
deriving DecidableEq, Repr

/-- Function `do_mount` (init.c:85-95): a mount failure with `errno = EBUSY` is
treated as success; every other failure is an error (C returns -1,
modelled as `false`). -/
def do_mount (r : SysResult) : Bool :=
  match r with
  | .ok => true
  | .err e => e == EBUSY

/-- Function `do_mkdir` (init.c:97-106): a failure with `errno = EEXIST` is treated
as success; every other failure is an error. -/
def do_mkdir (r : SysResult) : Bool :=
  match r with
  | .ok => true
  | .err e => e == EEXIST

/-- The five system-call outcomes consumed by `mount_filesystems`
(init.c:108-127): the /proc, /sys and /dev mounts, the /dev/pts mkdir,
and the devpts mount, in program order. -/
structure MountEnv where
  procRes : SysResult
  sysRes : SysResult
  devRes : SysResult
  ptsDirRes : SysResult
  devptsRes : SysResult
deriving DecidableEq, Repr

/-- Function `mount_filesystems` (init.c:108-127): the four mounts and one mkdir in
order, failing as soon as one of them fails. -/
def mount_filesystems (env : MountEnv) : Bool :=
  do_mount env.procRes && do_mount env.sysRes && do_mount env.devRes &&
    do_mkdir env.ptsDirRes && do_mount env.devptsRes

/-! ### Supervisor state, signal handlers and main (init.c:43-45, 310-437) -/

/-- The three `volatile` globals shared between the signal handlers and the
main loop (init.c:43-45). -/
structure ChildState where
  child_pid : Int
  child_exited : Bool
  child_exit_status : Nat
deriving DecidableEq, Repr

/-- The initial values of the globals (init.c:43-45). -/
def initialChildState : ChildState :=
  { child_pid := -1, child_exited := false, child_exit_status := 0 }

/-- A termination status as reported by `waitpid` for a reaped child:
`WIFEXITED` with the exit code (0-255), or `WIFSIGNALED` with the
terminating signal number. -/
inductive WaitStatus where
  | exited (code : Nat)
  | signaled (sig : Nat)
deriving DecidableEq, Repr

/-- One iteration of the `waitpid` loop body of `sigchld_handler`
(init.c:317-324): if the reaped pid is the recorded child, set
`child_exited` and record the status under the exit/signal convention. -/
def reap_one (st : ChildState) (pid : Int) (ws : WaitStatus) : ChildState :=
  if pid = st.child_pid then
    { st with
      child_exited := true
      child_exit_status :=
        match ws with
        | .exited code => code
        | .signaled sig => 128 + sig }
  else st

/-- Function `sigchld_handler` (init.c:310-326): drain all reaped children in order,
applying `reap_one` to each. -/
def sigchld_handler (st : ChildState) (reaped : List (Int × WaitStatus)) :
    ChildState :=
  reaped.foldl (fun st r => reap_one st r.1 r.2) st

/-- The ways the forked child can terminate: a normal exit with some code,
a signal-induced death, or the `execv` failure branch, in which the child
calls `_exit(127)` (init.c:415-417). -/
inductive ChildTermination where
  | normalExit (code : Nat)
  | bySignal (sig : Nat)
  | execFail
deriving DecidableEq, Repr

/-- The wait status the kernel reports to the supervisor for each way the
child can terminate; `WEXITSTATUS` exposes the low 8 bits of the code
passed to `_exit`, and the exec-failure branch is `_exit(127)`
(init.c:417). -/
def child_wait_status : ChildTermination → WaitStatus
  | .normalExit code => .exited (code % 256)
  | .bySignal sig => .signaled sig
  | .execFail => .exited 127

/-- One iteration of the supervisor loop body (init.c:424-433), entered
after `pause()` returns: if `child_exited` is set, log the recorded
status (returned as `some status`) and reset the flag. -/
def loop_iter (st : ChildState) : ChildState × Option Nat :=
  if st.child_exited then
    ({ st with child_exited := false }, some st.child_exit_status)
  else (st, none)

/-- Function `forward_signal` (init.c:328-333): deliver `sig` to the recorded child
if one exists (`child_pid > 0`); otherwise do nothing.  The returned
value models the single `kill(child_pid, sig)` call, `none` meaning no
delivery. -/
def forward_signal (child_pid : Int) (sig : Nat) : Option (Int × Nat) :=
  if 0 < child_pid then some (child_pid, sig) else none

/-- Signal numbers used by `setup_signals` (Linux numbering). -/
def SIGHUP : Nat := 1
/-- SIGINT. -/
def SIGINT : Nat := 2
/-- SIGTERM. -/
def SIGTERM : Nat := 15
/-- SIGCHLD. -/
def SIGCHLD : Nat := 17

/-- The disposition a signal can be given by `setup_signals`: the reaping
handler, the forwarding handler, or the untouched default. -/
inductive Disposition where
  | reap
  | forward
  | dfl
deriving DecidableEq, Repr

/-- Function `setup_signals` (init.c:335-351) as the mapping it installs: SIGCHLD
gets `sigchld_handler`; SIGTERM, SIGINT and SIGHUP get `forward_signal`;
everything else is left at its default. -/
def setup_signals (sig : Nat) : Disposition :=
  if sig = SIGCHLD then .reap
  else if sig = SIGTERM then .forward
  else if sig = SIGINT then .forward
  else if sig = SIGHUP then .forward
  else .dfl

/-! ### main (init.c:353-437) -/

/-- The system-call outcomes `main` consumes before forking: the mount
results, the boot command-line content (read from /proc/cmdline by both
`read_entrypoint` and `read_console`), and whether `fork` succeeds. -/
structure BootInputs where
  mounts : MountEnv
  cmdline : List Char
  forkOk : Bool

/-- How `main` can end, seen from the parent: `exit s` models `return s`
from `main`; `supervise args console` models a successful fork, after
which the parent enters the unconditionally infinite `for (;;)` loop
(init.c:424-433) with the given argument vector and console device and
never returns. -/
inductive MainOutcome where
  | exit (status : Nat)
  | supervise (args : List (List Char)) (console : List Char)

/-- The console device `main` records (init.c:380-386): the path from
`read_console` on success, the empty string on failure. -/
def main_console (inp : BootInputs) : List Char :=
  match read_console inp.cmdline 64 with
  | some c => c
  | none => []

/-- The pre-fork sequence of `main` (init.c:363-418): mount, read the
entrypoint into a 4096-byte buffer, read the console (non-fatal),
tokenize with `MAX_ARGS = 64`, then fork.  Each failure returns 1. -/
def main_model (inp : BootInputs) : MainOutcome :=
  if mount_filesystems inp.mounts = false then .exit 1
  else
    match read_entrypoint inp.cmdline 4096 with
    | .error _ => .exit 1
    | .ok ep =>
      let console := main_console inp
      let args := parse_args ep 64
      if args.length = 0 then .exit 1
      else if inp.forkOk = false then .exit 1
      else .supervise args console

/-- The four pre-fork fatal failures named by the spec: mount failure,
entrypoint read failure, zero tokens after tokenization, fork failure. -/
def fatal_failure (inp : BootInputs) : Prop :=
  mount_filesystems inp.mounts = false ∨
    (∃ e, read_entrypoint inp.cmdline 4096 = .error e) ∨
    (∃ ep, read_entrypoint inp.cmdline 4096 = .ok ep ∧ parse_args ep 64 = []) ∨
    inp.forkOk = false

/-! ### Helper lemmas about the string-search primitives -/

/-- Model soundness of `strstr`: it returns `none` exactly when the needle
occurs nowhere in the haystack. -/
theorem findSubstrIdx_eq_none_iff (n : List Char) (h : List Char) :
    findSubstrIdx n h = none ↔ ¬ n <:+: h := by
  induction h with
  | nil =>
    simp only [findSubstrIdx, List.infix_nil]
    by_cases hn : n = []
    · subst hn; simp
    · have : ¬ n.isPrefixOf ([] : List Char) := by
        simp [List.isPrefixOf_iff_prefix, hn]
      simp [this, hn]
  | cons c t ih =>
    simp only [findSubstrIdx]
    by_cases hp : n.isPrefixOf (c :: t)
    · have hpre : n <+: c :: t := List.isPrefixOf_iff_prefix.mp hp
      have hinf : n <:+: c :: t := List.infix_cons_iff.mpr (Or.inl hpre)
      simp [hp, hinf]
    · have hpre : ¬ n <+: c :: t := fun hc =>
        hp (List.isPrefixOf_iff_prefix.mpr hc)
      simp [hp, List.infix_cons_iff, hpre, Option.map_eq_none', ih]

/-- A successful `strstr` search means the needle does occur. -/
theorem infix_of_findSubstrIdx_some {n h : List Char} {i : Nat}
    (hf : findSubstrIdx n h = some i) : n <:+: h := by
  by_contra hc
  rw [← findSubstrIdx_eq_none_iff] at hc
  simp [hf] at hc

/-- When the needle is a prefix of the haystack, `strstr` finds it at
index 0. -/
theorem findSubstrIdx_of_isPrefixOf {n h : List Char}
    (hp : n.isPrefixOf h = true) : findSubstrIdx n h = some 0 := by
  cases h <;> simp [findSubstrIdx, hp]

/-- Model soundness of `strchr`: it returns `none` exactly when the
character does not occur. -/
theorem strchrIdx_eq_none_iff (c : Char) (l : List Char) :
    strchrIdx c l = none ↔ c ∉ l := by
  induction l with
  | nil => simp [strchrIdx]
  | cons x t ih =>
    by_cases hx : x = c
    · subst hx; simp [strchrIdx]
    · simp only [strchrIdx, if_neg hx, Option.map_eq_none', ih,
        List.mem_cons, not_or]
      constructor
      · intro hm
        exact ⟨fun e => hx e.symm, hm⟩
      · intro hm
        exact hm.2

/-- Appending a character-free block on the left shifts the `strchr`
index by its length. -/
theorem strchrIdx_append_some {c : Char} {l₂ : List Char} {j : Nat}
    (l₁ : List Char) (h₁ : c ∉ l₁) (h₂ : strchrIdx c l₂ = some j) :
    strchrIdx c (l₁ ++ l₂) = some (l₁.length + j) := by
  induction l₁ with
  | nil => simpa using h₂
  | cons x t ih =>
    have hx : x ≠ c := fun e => h₁ (by simp [e])
    have hmem : c ∉ t := fun hm => h₁ (List.mem_cons_of_mem x hm)
    simp only [List.cons_append, strchrIdx, if_neg hx, List.append_eq,
      List.length_cons]
    rw [ih hmem]
    show some (t.length + j + 1) = some (t.length + 1 + j)
    congr 1
    omega

/-- Evaluation of `read_entrypoint` when the first marker occurrence is
followed by a double-quoted value `v` (no quote inside `v`) and a closing
quote. -/
theorem read_entrypoint_quoted (cl v s : List Char) (k : Nat) (bs : Nat)
    (hf : findSubstrIdx epKey cl = some k)
    (hv : cl.drop k = epKey ++ '"' :: (v ++ '"' :: s))
    (hq : '"' ∉ v) :
    read_entrypoint cl bs = finishValue v bs := by
  have hdrop : cl.drop (k + epKey.length) = '"' :: (v ++ '"' :: s) := by
    rw [← List.drop_drop, hv, List.drop_left]
  have hchr : strchrIdx '"' (v ++ '"' :: s) = some (v.length + 0) :=
    strchrIdx_append_some v hq (by simp [strchrIdx])
  simp only [read_entrypoint, hf, hdrop, List.head?_cons, List.tail_cons,
    hchr, Nat.add_zero, List.take_left]
  simp

/-- C1: two-stage quoting.  For every boot command line whose first
occurrence of the marker reads `kerf.entrypoint="a b c"`, extraction
yields the raw value `a b c` (only the outer double quotes stripped) and
tokenization of that value yields `["a", "b", "c"]`; likewise, for a
first occurrence reading `kerf.entrypoint="/bin/sh -c 'echo hi'"`,
extraction yields `/bin/sh -c 'echo hi'` and tokenization yields
`["/bin/sh", "-c", "echo hi"]`, single quotes being handled like double
quotes by the tokenizer. -/
theorem two_stage_quoting
    (cl₁ cl₂ s₁ s₂ : List Char) (k₁ k₂ : Nat)
    (h₁ : findSubstrIdx epKey cl₁ = some k₁)
    (h₁v : cl₁.drop k₁ = epKey ++ '"' :: ("a b c".data ++ '"' :: s₁))
    (h₂ : findSubstrIdx epKey cl₂ = some k₂)
    (h₂v : cl₂.drop k₂ = epKey ++ '"' :: (shValue ++ '"' :: s₂)) :
    read_entrypoint cl₁ 4096 = .ok "a b c".data
    ∧ parse_args "a b c".data 64 = ["a".data, "b".data, "c".data]
    ∧ read_entrypoint cl₂ 4096 = .ok shValue
    ∧ parse_args shValue 64 =
        ["/bin/sh".data, "-c".data, "echo hi".data] := by
  refine ⟨?_, by decide, ?_, by decide⟩
  · exact (read_entrypoint_quoted cl₁ _ s₁ k₁ 4096 h₁ h₁v (by decide)).trans
      (by rfl)
  · exact (read_entrypoint_quoted cl₂ _ s₂ k₂ 4096 h₂ h₂v (by decide)).trans
      (by rfl)

/-- C1 witness: both examples instantiated with the marker at index 0 and
an empty remainder of the command line. -/
theorem two_stage_quoting_witness :
    read_entrypoint (epKey ++ '"' :: ("a b c".data ++ ['"'])) 4096 =
      .ok "a b c".data
    ∧ parse_args "a b c".data 64 = ["a".data, "b".data, "c".data]
    ∧ read_entrypoint (epKey ++ '"' :: (shValue ++ ['"'])) 4096 =
      .ok shValue
    ∧ parse_args shValue 64 =
        ["/bin/sh".data, "-c".data, "echo hi".data] :=
  two_stage_quoting
    (epKey ++ '"' :: ("a b c".data ++ ['"']))
    (epKey ++ '"' :: (shValue ++ ['"'])) [] [] 0 0
    (by decide) (by decide) (by decide) (by decide)

/-- C2: child exit-status convention and flag reset.  After the child
terminates in any manner and the SIGCHLD handler reaps it, the recorded
`child_exit_status` is the child's numeric exit status (0-255) for a
normal exit, 128 plus the signal number for a signal-induced
termination, and 127 for the exec-failure branch (`_exit(127)`), with
`child_exited` set; and the main-loop iteration that logs (consumes) the
exit resets `child_exited` to false. -/
theorem child_exit_convention (st st' : ChildState) (t : ChildTermination)
    (hst : st' = sigchld_handler st [(st.child_pid, child_wait_status t)]) :
    st'.child_exited = true
    ∧ (∀ code, t = .normalExit code → code < 256 →
        st'.child_exit_status = code)
    ∧ (∀ sig, t = .bySignal sig → st'.child_exit_status = 128 + sig)
    ∧ (t = .execFail → st'.child_exit_status = 127)
    ∧ (loop_iter st').1.child_exited = false
    ∧ (loop_iter st').2 = some st'.child_exit_status := by
  have hst' : st' =
      { st with
        child_exited := true
        child_exit_status :=
          match child_wait_status t with
          | .exited code => code
          | .signaled sig => 128 + sig } := by
    rw [hst]
    simp [sigchld_handler, reap_one]
  subst hst'
  refine ⟨rfl, ?_, ?_, ?_, ?_, ?_⟩
  · intro code hc hlt
    subst hc
    simp [child_wait_status, Nat.mod_eq_of_lt hlt]
  · intro sig hs
    subst hs
    simp [child_wait_status]
  · intro he
    subst he
    simp [child_wait_status]
  · simp [loop_iter]
  · simp [loop_iter]

/-- C2 witness: a child killed by signal 9 is recorded as 137, and the
consuming loop iteration clears the flag. -/
theorem child_exit_convention_witness :
    (sigchld_handler ⟨5, false, 0⟩
        [(5, child_wait_status (.bySignal 9))]).child_exit_status = 137
    ∧ (loop_iter (sigchld_handler ⟨5, false, 0⟩
        [(5, child_wait_status (.bySignal 9))])).1.child_exited = false := by
  have h := child_exit_convention ⟨5, false, 0⟩
    (sigchld_handler ⟨5, false, 0⟩ [(5, child_wait_status (.bySignal 9))])
    (.bySignal 9) rfl
  exact ⟨h.2.2.1 9 rfl, h.2.2.2.2.1⟩

/-- C5: signal relay.  Each of SIGTERM, SIGINT and SIGHUP is installed
with the forwarding handler, and that handler delivers the identical
signal number to the child exactly when a child pid greater than zero
has been recorded; otherwise forwarding is a no-op. -/
theorem signal_relay (sig : Nat) (pid : Int)
    (hsig : sig = SIGTERM ∨ sig = SIGINT ∨ sig = SIGHUP) :
    setup_signals sig = .forward
    ∧ (0 < pid → forward_signal pid sig = some (pid, sig))
    ∧ (pid ≤ 0 → forward_signal pid sig = none) := by
  refine ⟨?_, ?_, ?_⟩
  · rcases hsig with h | h | h <;> subst h <;> rfl
  · intro hp
    simp [forward_signal, hp]
  · intro hp
    simp [forward_signal, Int.not_lt.mpr hp]

/-- C5 witness: SIGTERM at a recorded child pid 7 is forwarded as-is. -/
theorem signal_relay_witness :
    setup_signals 15 = .forward
    ∧ forward_signal 7 15 = some (7, 15)
    ∧ forward_signal (-1) 15 = none := by
  have h := signal_relay 15 7 (Or.inl rfl)
  have h' := signal_relay 15 (-1) (Or.inl rfl)
  exact ⟨h.1, h.2.1 (by decide), h'.2.2 (by decide)⟩

/-- C7: mount idempotence.  A second run of the bootstrap after a
successful one — every mount reporting EBUSY (already mounted) and the
mkdir reporting EEXIST (already exists) — still succeeds, while any
other mount errno fails `do_mount`, any other mkdir errno fails
`do_mkdir`, and `mount_filesystems` succeeds exactly when all five steps
do. -/
theorem mount_idempotence (e : Nat) (env : MountEnv) :
    mount_filesystems
      ⟨.err EBUSY, .err EBUSY, .err EBUSY, .err EEXIST, .err EBUSY⟩ = true
    ∧ (do_mount (.err e) = true ↔ e = EBUSY)
    ∧ (do_mkdir (.err e) = true ↔ e = EEXIST)
    ∧ (mount_filesystems env = true ↔
        do_mount env.procRes = true ∧ do_mount env.sysRes = true ∧
        do_mount env.devRes = true ∧ do_mkdir env.ptsDirRes = true ∧
        do_mount env.devptsRes = true)
    ∧ ((e ≠ EBUSY ∧ (env.procRes = .err e ∨ env.sysRes = .err e ∨
          env.devRes = .err e ∨ env.devptsRes = .err e)) ∨
        (e ≠ EEXIST ∧ env.ptsDirRes = .err e) →
        mount_filesystems env = false) := by
  refine ⟨by decide, by simp [do_mount], by simp [do_mkdir], ?_, ?_⟩
  · simp [mount_filesystems, and_assoc]
  · intro hcase
    have hiff : mount_filesystems env = true ↔
        do_mount env.procRes = true ∧ do_mount env.sysRes = true ∧
        do_mount env.devRes = true ∧ do_mkdir env.ptsDirRes = true ∧
        do_mount env.devptsRes = true := by
      simp [mount_filesystems, and_assoc]
    rcases hcase with ⟨hne, hc⟩ | ⟨hne, hc⟩
    · have hbad : ∀ r, r = SysResult.err e → do_mount r = false := by
        intro r hr
        subst hr
        simpa [do_mount] using hne
      cases hmf : mount_filesystems env with
      | false => rfl
      | true =>
        have := hiff.mp hmf
        rcases hc with h | h | h | h <;>
          simp [hbad _ h] at this
    · cases hmf : mount_filesystems env with
      | false => rfl
      | true =>
        have := hiff.mp hmf
        have hbad : do_mkdir env.ptsDirRes = false := by
          rw [hc]
          simpa [do_mkdir] using hne
        simp [hbad] at this

/-- C7 witness: the all-EBUSY/EEXIST second run succeeds, and errno 13
(not EBUSY) fails a mount. -/
theorem mount_idempotence_witness :
    mount_filesystems
      ⟨.err EBUSY, .err EBUSY, .err EBUSY, .err EEXIST, .err EBUSY⟩ = true
    ∧ mount_filesystems
      ⟨.err 13, .ok, .ok, .ok, .ok⟩ = false := by
  have h := mount_idempotence 13 ⟨.err 13, .ok, .ok, .ok, .ok⟩
  exact ⟨h.1, h.2.2.2.2 (Or.inl ⟨by decide, Or.inl rfl⟩)⟩

/-- Helper for C9: `finishValue` never reports `tooLong` when the value
fits strictly below the buffer size. -/
theorem finishValue_ne_tooLong {v : List Char} {bs : Nat}
    (h : v.length < bs) : finishValue v bs ≠ .error .tooLong := by
  unfold finishValue
  split
  · simp
  · split
    · omega
    · simp

/-- C9: at the single call site in `main`, the destination buffer has
4096 bytes while the command line read from /proc/cmdline is capped at
4095 bytes, so the extracted value is always strictly shorter than the
buffer and the `tooLong` branch of `read_entrypoint` is unreachable. -/
theorem too_long_unreachable (cl : List Char) (h : cl.length ≤ 4095) :
    read_entrypoint cl 4096 ≠ .error .tooLong := by
  cases hf : findSubstrIdx epKey cl with
  | none => simp [read_entrypoint, hf]
  | some i =>
    simp only [read_entrypoint, hf]
    have hrl : (cl.drop (i + epKey.length)).length ≤ 4095 := by
      simp only [List.length_drop]
      omega
    by_cases hq : (cl.drop (i + epKey.length)).head? = some '"'
    · rw [if_pos hq]
      cases hc : strchrIdx '"' (cl.drop (i + epKey.length)).tail with
      | none => simp
      | some j =>
        apply finishValue_ne_tooLong
        have h1 : ((cl.drop (i + epKey.length)).tail.take j).length ≤
            (cl.drop (i + epKey.length)).tail.length := by
          simp only [List.length_take]
          omega
        have h2 : (cl.drop (i + epKey.length)).tail.length ≤
            (cl.drop (i + epKey.length)).length := by
          simp only [List.length_tail]
          omega
        omega
    · rw [if_neg hq]
      apply finishValue_ne_tooLong
      have h1 := (List.takeWhile_sublist
        (fun c => !(c = ' ' || c = nl))
        (l := cl.drop (i + epKey.length))).length_le
      omega

/-- C9 witness: a concrete command line of length at most 4095. -/
theorem too_long_unreachable_witness :
    read_entrypoint "kerf.entrypoint=/bin/sh".data 4096 ≠
      .error .tooLong :=
  too_long_unreachable "kerf.entrypoint=/bin/sh".data (by decide)

/-- Helper: `main` returns 1 exactly when one of the four pre-fork fatal
failures occurs. -/
theorem main_model_exit_iff (inp : BootInputs) :
    main_model inp = .exit 1 ↔ fatal_failure inp := by
  by_cases hm : mount_filesystems inp.mounts = false
  · exact ⟨fun _ => Or.inl hm, fun _ => by simp [main_model, hm]⟩
  · cases he : read_entrypoint inp.cmdline 4096 with
    | error e =>
      exact ⟨fun _ => Or.inr (Or.inl ⟨e, he⟩),
        fun _ => by simp [main_model, hm, he]⟩
    | ok ep =>
      by_cases ha : (parse_args ep 64).length = 0
      · refine ⟨fun _ => Or.inr (Or.inr (Or.inl
          ⟨ep, he, List.length_eq_zero.mp ha⟩)), fun _ => ?_⟩
        simp [main_model, hm, he, ha]
      · by_cases hfk : inp.forkOk = false
        · exact ⟨fun _ => Or.inr (Or.inr (Or.inr hfk)),
            fun _ => by simp [main_model, hm, he, ha, hfk]⟩
        · constructor
          · intro hexit
            exfalso
            simp [main_model, hm, he, ha, hfk] at hexit
          · intro hfat
            exfalso
            rcases hfat with h1 | ⟨e, h2⟩ | ⟨ep2, h3, h4⟩ | h5
            · exact hm h1
            · rw [he] at h2
              exact Except.noConfusion h2
            · rw [he] at h3
              injection h3 with h3
              subst h3
              exact ha (by rw [h4]; rfl)
            · exact hfk h5

/-- Helper: every `return` from `main` carries status 1. -/
theorem main_model_exit_one (inp : BootInputs) (n : Nat)
    (h : main_model inp = .exit n) : n = 1 := by
  simp only [main_model] at h
  split at h
  · injection h with h
    exact h.symm
  · split at h
    · injection h with h
      exact h.symm
    · split at h
      · injection h with h
        exact h.symm
      · split at h
        · injection h with h
          exact h.symm
        · exact absurd h (by simp)

/-- Helper: without a fatal failure `main` forks and enters the infinite
supervisor loop with a nonempty argument vector. -/
theorem main_model_not_fatal (inp : BootInputs) (h : ¬ fatal_failure inp) :
    ∃ ep, read_entrypoint inp.cmdline 4096 = .ok ep ∧
      main_model inp = .supervise (parse_args ep 64) (main_console inp) ∧
      parse_args ep 64 ≠ [] := by
  unfold fatal_failure at h
  push_neg at h
  obtain ⟨h1, h2, h3, h4⟩ := h
  cases he : read_entrypoint inp.cmdline 4096 with
  | error e => exact absurd he (h2 e)
  | ok ep =>
    have hne := h3 ep he
    have ha : ¬ (parse_args ep 64).length = 0 :=
      fun hl => hne (List.length_eq_zero.mp hl)
    refine ⟨ep, rfl, ?_, hne⟩
    simp [main_model, h1, he, ha, h4]

/-- C4: exit characterization.  `main` returns (with status 1) exactly
when a pre-fork fatal failure occurs — mount failure, entrypoint read
failure, zero tokens, or fork failure; any returned status is 1; and
after a successful fork the outcome is `supervise`, the unconditionally
infinite parent loop, which never returns. -/
theorem main_exit_characterization (inp : BootInputs) :
    (main_model inp = .exit 1 ↔ fatal_failure inp)
    ∧ (∀ n, main_model inp = .exit n → n = 1)
    ∧ (¬ fatal_failure inp →
        ∃ args console, main_model inp = .supervise args console ∧
          args ≠ []) := by
  refine ⟨main_model_exit_iff inp, fun n h => main_model_exit_one inp n h, ?_⟩
  intro h
  obtain ⟨ep, _, hsup, hne⟩ := main_model_not_fatal inp h
  exact ⟨_, _, hsup, hne⟩

/-- C4 witness: a failed /proc mount (errno 5) makes `main` return 1. -/
theorem main_exit_characterization_witness :
    main_model ⟨⟨.err 5, .ok, .ok, .ok, .ok⟩,
      "kerf.entrypoint=/bin/sh".data, true⟩ = .exit 1 :=
  (main_exit_characterization _).1.mpr (Or.inl (by decide))

/-- C6: console extraction.  A command line whose first `console=` marker
is followed by `ttyS0,115200` resolves to the device path `/dev/ttyS0`
(comma terminates the value; the baud suffix is discarded; the `/dev/`
prefix is prepended); and a `read_console` failure is non-fatal: `main`
records an empty console device and the boot outcome is exactly as
dictated by the four fatal conditions, reaching the supervisor loop with
an empty console when none of them holds. -/
theorem console_extraction :
    (∀ (cl s : List Char) (k : Nat),
        findSubstrIdx consoleKey cl = some k →
        cl.drop k = consoleKey ++ ("ttyS0,115200".data ++ s) →
        read_console cl 64 = some "/dev/ttyS0".data)
    ∧ (∀ inp : BootInputs, read_console inp.cmdline 64 = none →
        main_console inp = []
        ∧ (main_model inp = .exit 1 ↔ fatal_failure inp)
        ∧ (¬ fatal_failure inp →
            ∃ args, main_model inp = .supervise args [])) := by
  constructor
  · intro cl s k hf hv
    have hdrop : cl.drop (k + consoleKey.length) =
        "ttyS0,115200".data ++ s := by
      rw [← List.drop_drop, hv, List.drop_left]
    have hsplit : "ttyS0,115200".data =
        "ttyS0".data ++ ',' :: "115200".data := by decide
    have htw : ("ttyS0,115200".data ++ s).takeWhile
        (fun c => !(c = ' ' || c = ',' || c = nl)) = "ttyS0".data := by
      rw [hsplit, List.append_assoc, List.cons_append]
      simp [List.takeWhile_cons, nl]
    simp only [read_console, hf, hdrop, htw]
    decide
  · intro inp hrc
    have hcons : main_console inp = [] := by
      simp [main_console, hrc]
    refine ⟨hcons, main_model_exit_iff inp, ?_⟩
    intro h
    obtain ⟨ep, _, hsup, _⟩ := main_model_not_fatal inp h
    rw [hcons] at hsup
    exact ⟨parse_args ep 64, hsup⟩

/-- C6 witness: `console=ttyS0,115200 quiet` resolves to `/dev/ttyS0`,
and a command line with no `console=` marker records no console. -/
theorem console_extraction_witness :
    read_console "console=ttyS0,115200 quiet".data 64 =
      some "/dev/ttyS0".data
    ∧ main_console ⟨⟨.ok, .ok, .ok, .ok, .ok⟩,
        "kerf.entrypoint=/bin/sh".data, true⟩ = [] :=
  ⟨console_extraction.1 "console=ttyS0,115200 quiet".data " quiet".data 0
      (by decide) (by decide),
    (console_extraction.2 ⟨⟨.ok, .ok, .ok, .ok, .ok⟩,
      "kerf.entrypoint=/bin/sh".data, true⟩ (by decide)).1⟩

/-! ### Helper lemmas about the tokenizer scan -/

/-- Inside a quote, every character up to the (absent) terminator is kept;
at end of input the scan stops with the quote still open, which is not an
error. -/
theorem scan_token_inquote (qc : Char) (u : List Char) (h : qc ∉ u) :
    scan_token u true qc = (u, []) := by
  induction u with
  | nil => rfl
  | cons c t ih =>
    have hc : c ≠ qc := fun e => h (by simp [e])
    have ht : qc ∉ t := fun hm => h (List.mem_cons_of_mem c hm)
    simp [scan_token, hc, ih ht]

/-- Plain characters (no whitespace, no quotes) pass through the unquoted
scan unchanged. -/
theorem scan_token_notws (v r : List Char) (qc : Char)
    (hv : ∀ c ∈ v, isWs c = false ∧ c ≠ '"' ∧ c ≠ squote) :
    scan_token (v ++ r) false qc =
      (v ++ (scan_token r false qc).1, (scan_token r false qc).2) := by
  induction v with
  | nil => simp
  | cons c t ih =>
    obtain ⟨hw, hq1, hq2⟩ := hv c (by simp)
    have ht : ∀ x ∈ t, isWs x = false ∧ x ≠ '"' ∧ x ≠ squote :=
      fun x hx => hv x (by simp [hx])
    simp [scan_token, hw, hq1, hq2, ih ht]

/-- An unquoted word followed by a whitespace delimiter: the scan returns
the word and consumes the delimiter. -/
theorem scan_word (v : List Char) (d : Char) (s : List Char) (qc : Char)
    (hv : ∀ c ∈ v, isWs c = false ∧ c ≠ '"' ∧ c ≠ squote)
    (hd : isWs d = true) :
    scan_token (v ++ d :: s) false qc = (v, s) := by
  have hd' : d = ' ' ∨ d = Char.ofNat 9 := by simpa [isWs] using hd
  have hq1 : d ≠ '"' := by rcases hd' with h | h <;> subst h <;> decide
  have hq2 : d ≠ squote := by rcases hd' with h | h <;> subst h <;> decide
  rw [scan_token_notws v _ qc hv]
  simp [scan_token, hq1, hq2, hd]

/-- An unquoted word running to the end of the input. -/
theorem scan_token_end (v : List Char) (qc : Char)
    (hv : ∀ c ∈ v, isWs c = false ∧ c ≠ '"' ∧ c ≠ squote) :
    scan_token v false qc = (v, []) := by
  have h := scan_token_notws v [] qc hv
  have h2 : scan_token ([] : List Char) false qc = ([], []) := rfl
  rw [h2] at h
  simpa using h

/-- The outer tokenizer loop on empty input yields no tokens. -/
theorem parse_args_loop_nil (k : Nat) : parse_args_loop [] k = [] := by
  cases k <;> rfl

/-- The outer tokenizer loop yields at most as many tokens as it has
slots. -/
theorem parse_args_loop_length (s : List Char) (k : Nat) :
    (parse_args_loop s k).length ≤ k := by
  induction k generalizing s with
  | zero => simp [parse_args_loop]
  | succ k ih =>
    cases hdw : s.dropWhile isWs with
    | nil => simp [parse_args_loop, hdw]
    | cons c t =>
      simp only [parse_args_loop, hdw, List.length_cons]
      exact Nat.succ_le_succ (ih _)

/-- A single-token input: the loop yields exactly the scanned token. -/
theorem parse_args_loop_single (u w : List Char) (k : Nat)
    (hdw : u.dropWhile isWs = u) (hu : u ≠ [])
    (hscan : scan_token u false (Char.ofNat 0) = (w, [])) :
    parse_args_loop u (k + 1) = [w] := by
  cases u with
  | nil => exact absurd rfl hu
  | cons c t =>
    simp only [parse_args_loop, hdw, hscan, parse_args_loop_nil]

/-- C10: an unterminated quote is not an error for `parse_args` — the
opening quote is removed and the token extends to the end of the string,
whitespace included, with the usual count returned; by contrast,
`read_entrypoint` fails with `malformed` on an unterminated double
quote. -/
theorem unterminated_quote_token (s₁ s₂ : List Char) (m : Nat)
    (h₁ : ∀ c ∈ s₁, isWs c = false ∧ c ≠ '"' ∧ c ≠ squote)
    (h₂ : '"' ∉ s₂)
    (hm : 2 ≤ m) :
    parse_args (s₁ ++ '"' :: s₂) m = [s₁ ++ s₂]
    ∧ parse_args_count (s₁ ++ '"' :: s₂) m = 1
    ∧ (∀ v, '"' ∉ v →
        read_entrypoint (epKey ++ '"' :: v) 4096 = .error .malformed) := by
  have hqscan : scan_token ('"' :: s₂) false (Char.ofNat 0) = (s₂, []) := by
    simp [scan_token, scan_token_inquote '"' s₂ h₂]
  have hscan : scan_token (s₁ ++ '"' :: s₂) false (Char.ofNat 0) =
      (s₁ ++ s₂, []) := by
    rw [scan_token_notws s₁ _ _ h₁, hqscan]
  have hdw : (s₁ ++ '"' :: s₂).dropWhile isWs = s₁ ++ '"' :: s₂ := by
    cases s₁ with
    | nil =>
      simp only [List.nil_append]
      rw [List.dropWhile_cons_of_neg (by decide)]
    | cons c t =>
      have := (h₁ c (by simp)).1
      simp [List.dropWhile_cons, this]
  have hne : s₁ ++ '"' :: s₂ ≠ [] := by simp
  have hmain : parse_args (s₁ ++ '"' :: s₂) m = [s₁ ++ s₂] := by
    unfold parse_args
    obtain ⟨k, hk⟩ : ∃ k, m - 1 = k + 1 := ⟨m - 2, by omega⟩
    rw [hk]
    exact parse_args_loop_single _ _ k hdw hne hscan
  refine ⟨hmain, by simp [parse_args_count, hmain], ?_⟩
  intro v hv
  have hpre : epKey.isPrefixOf (epKey ++ '"' :: v) = true :=
    List.isPrefixOf_iff_prefix.mpr (List.prefix_append _ _)
  have hf : findSubstrIdx epKey (epKey ++ '"' :: v) = some 0 :=
    findSubstrIdx_of_isPrefixOf hpre
  have hdrop : (epKey ++ '"' :: v).drop (0 + epKey.length) = '"' :: v := by
    simp [List.drop_left]
  have hchr : strchrIdx '"' v = none := (strchrIdx_eq_none_iff _ _).mpr hv
  simp [read_entrypoint, hf, hdrop, hchr]

/-- C10 witness: `/bin" x` tokenizes to the single token `/bin x`, while
the entrypoint reader rejects an unterminated quote. -/
theorem unterminated_quote_token_witness :
    parse_args ("/bin".data ++ '"' :: " x".data) 64 = ["/bin x".data]
    ∧ read_entrypoint (epKey ++ '"' :: "abc".data) 4096 =
        .error .malformed := by
  have h := unterminated_quote_token "/bin".data " x".data 64
    (by decide) (by decide) (by decide)
  exact ⟨h.1.trans (by decide), h.2.2 "abc".data (by decide)⟩

/-- C8: tokenizer shape.  `parse_args` produces at most `max_args - 1`
tokens (ignoring further input), stores the NULL sentinel right after
the last token, and returns the token count, zero being an ordinary
return value; splitting is on runs of spaces and tabs, captured by the
recursion equations: empty input gives no tokens, leading whitespace is
skipped, a quote-free word before a whitespace delimiter becomes one
token followed by the tokens of the remainder (one slot consumed), and a
trailing quote-free word is a final token. -/
theorem parse_args_shape (s v : List Char) (d : Char) (m : Nat) :
    parse_args_count s m ≤ m - 1
    ∧ (parse_argv s m)[parse_args_count s m]? = some none
    ∧ parse_args [] m = []
    ∧ (isWs d = true → parse_args (d :: s) m = parse_args s m)
    ∧ (v ≠ [] → (∀ c ∈ v, isWs c = false ∧ c ≠ '"' ∧ c ≠ squote) →
        isWs d = true → 2 ≤ m →
        parse_args (v ++ d :: s) m = v :: parse_args s (m - 1))
    ∧ (v ≠ [] → (∀ c ∈ v, isWs c = false ∧ c ≠ '"' ∧ c ≠ squote) →
        2 ≤ m → parse_args v m = [v]) := by
  refine ⟨parse_args_loop_length s (m - 1), ?_, ?_, ?_, ?_, ?_⟩
  · unfold parse_argv parse_args_count
    rw [List.getElem?_append_right (by simp)]
    simp
  · simp [parse_args, parse_args_loop_nil]
  · intro hd
    unfold parse_args
    cases hk : m - 1 with
    | zero => rfl
    | succ k =>
      simp only [parse_args_loop, List.dropWhile_cons_of_pos hd]
  · intro hvne hv hd hm
    unfold parse_args
    obtain ⟨c, t, hct⟩ : ∃ c t, v = c :: t := by
      cases v with
      | nil => exact absurd rfl hvne
      | cons c t => exact ⟨c, t, rfl⟩
    obtain ⟨k, hk⟩ : ∃ k, m - 1 = k + 1 := ⟨m - 2, by omega⟩
    rw [hk, Nat.add_sub_cancel]
    subst hct
    have hdw : (c :: (t ++ d :: s)).dropWhile isWs = c :: (t ++ d :: s) := by
      have := (hv c (by simp)).1
      simp [List.dropWhile_cons, this]
    have hscan : scan_token (c :: (t ++ d :: s)) false (Char.ofNat 0) =
        (c :: t, s) := by
      have := scan_word (c :: t) d s (Char.ofNat 0) hv hd
      simpa [List.cons_append] using this
    show parse_args_loop (c :: (t ++ d :: s)) (k + 1) =
      (c :: t) :: parse_args_loop s k
    simp only [parse_args_loop, hdw, hscan]
  · intro hvne hv hm
    unfold parse_args
    obtain ⟨k, hk⟩ : ∃ k, m - 1 = k + 1 := ⟨m - 2, by omega⟩
    rw [hk]
    have hdw : v.dropWhile isWs = v := by
      cases v with
      | nil => rfl
      | cons c t =>
        have := (hv c (by simp)).1
        simp [List.dropWhile_cons, this]
    exact parse_args_loop_single v v k hdw hvne (scan_token_end v _ hv)

/-- C8 witness: the input `( a  b )` and the word-splitting equation on
`a b`. -/
theorem parse_args_shape_witness :
    parse_args_count " a  b ".data 64 ≤ 63
    ∧ (parse_argv " a  b ".data 64)[parse_args_count " a  b ".data 64]? =
        some none
    ∧ parse_args ("a".data ++ ' ' :: "b".data) 64 =
        "a".data :: parse_args "b".data 63 := by
  have h := parse_args_shape " a  b ".data "a".data ' ' 64
  have h2 := parse_args_shape "b".data "a".data ' ' 64
  exact ⟨h.1, h.2.1,
    h2.2.2.2.2.1 (by decide) (by decide) (by decide) (by decide)⟩

/-- Helper: the length checks never report `notFound`. -/
theorem finishValue_ne_notFound {v : List Char} {bs : Nat} :
    finishValue v bs ≠ .error .notFound := by
  unfold finishValue
  split
  · simp
  · split
    · simp
    · simp

/-- Helper: the length checks never report `malformed`. -/
theorem finishValue_ne_malformed {v : List Char} {bs : Nat} :
    finishValue v bs ≠ .error .malformed := by
  unfold finishValue
  split
  · simp
  · split
    · simp
    · simp

/-- Helper: `takeWhile` of a split whose left part satisfies the predicate
and whose right part is empty or starts with a failing character. -/
theorem takeWhile_eq_of_split (p : Char → Bool) (v u : List Char)
    (hv : ∀ c ∈ v, p c = true)
    (hu : u = [] ∨ ∃ e u2, u = e :: u2 ∧ p e = false) :
    (v ++ u).takeWhile p = v := by
  rcases hu with rfl | ⟨e, u2, rfl, he⟩
  · rw [List.append_nil]
    exact List.takeWhile_eq_self_iff.mpr hv
  · rw [List.takeWhile_append_of_pos hv,
      List.takeWhile_cons_of_neg (by simp [he])]
    simp

/-- C3: `read_entrypoint` fails, and only fails, in exactly these cases —
`notFound` iff the marker is absent; after the first marker occurrence,
a double-quoted value is `malformed` iff it has no closing quote, and
with a closing quote the value `v` up to it (spaces allowed inside)
yields `empty` when it has length zero, `tooLong` when it does not fit
into the buffer (`bufsize ≤ length`), and success with `v` written
otherwise; an unquoted value runs to the next space or newline (or end
of input) with the same three outcomes. -/
theorem read_entrypoint_cases (cl : List Char) (bs : Nat) :
    (read_entrypoint cl bs = .error .notFound ↔ ¬ epKey <:+: cl)
    ∧ (∀ i t, findSubstrIdx epKey cl = some i →
        cl.drop (i + epKey.length) = '"' :: t →
        ((read_entrypoint cl bs = .error .malformed ↔ '"' ∉ t)
         ∧ (∀ v u, t = v ++ '"' :: u → '"' ∉ v →
             read_entrypoint cl bs =
               (if v.length = 0 then .error .empty
                else if bs ≤ v.length then .error .tooLong
                else .ok v))))
    ∧ (∀ i, findSubstrIdx epKey cl = some i →
        (cl.drop (i + epKey.length)).head? ≠ some '"' →
        ∀ v u, cl.drop (i + epKey.length) = v ++ u →
          (∀ c ∈ v, c ≠ ' ' ∧ c ≠ nl) →
          (u = [] ∨ ∃ e u2, u = e :: u2 ∧ (e = ' ' ∨ e = nl)) →
          read_entrypoint cl bs =
            (if v.length = 0 then .error .empty
             else if bs ≤ v.length then .error .tooLong
             else .ok v)) := by
  refine ⟨?_, ?_, ?_⟩
  · cases hf : findSubstrIdx epKey cl with
    | none =>
      constructor
      · intro _
        exact (findSubstrIdx_eq_none_iff _ _).mp hf
      · intro _
        simp [read_entrypoint, hf]
    | some i =>
      have hinf := infix_of_findSubstrIdx_some hf
      constructor
      · intro hres
        exfalso
        revert hres
        simp only [read_entrypoint, hf]
        by_cases hq : (cl.drop (i + epKey.length)).head? = some '"'
        · rw [if_pos hq]
          cases hc : strchrIdx '"' (cl.drop (i + epKey.length)).tail with
          | none => simp
          | some j => exact fun h => finishValue_ne_notFound h
        · rw [if_neg hq]
          exact fun h => finishValue_ne_notFound h
      · intro hni
        exact absurd hinf hni
  · intro i t hf ht
    constructor
    · cases hc : strchrIdx '"' t with
      | none =>
        have hmem := (strchrIdx_eq_none_iff _ _).mp hc
        exact ⟨fun _ => hmem, fun _ => by simp [read_entrypoint, hf, ht, hc]⟩
      | some j =>
        have hmem : '"' ∈ t := by
          by_contra hm
          rw [← strchrIdx_eq_none_iff] at hm
          simp [hc] at hm
        constructor
        · intro hres
          exfalso
          have heq : read_entrypoint cl bs = finishValue (t.take j) bs := by
            simp [read_entrypoint, hf, ht, hc]
          rw [heq] at hres
          exact finishValue_ne_malformed hres
        · intro hnm
          exact absurd hmem hnm
    · intro v u hvu hvq
      have hc : strchrIdx '"' t = some v.length := by
        rw [hvu]
        have h0 : strchrIdx '"' ('"' :: u) = some 0 := by simp [strchrIdx]
        simpa using strchrIdx_append_some v hvq h0
      have htake : t.take v.length = v := by
        rw [hvu]
        exact List.take_left v _
      have heq : read_entrypoint cl bs = finishValue (t.take v.length) bs := by
        simp [read_entrypoint, hf, ht, hc]
      rw [heq, htake]
      rfl
  · intro i hf hq v u hvu hv hu
    have hp : ∀ c ∈ v, (fun c => !(c = ' ' || c = nl)) c = true := by
      intro c hcv
      obtain ⟨h1, h2⟩ := hv c hcv
      simp [h1, h2]
    have hu2 : u = [] ∨ ∃ e u2, u = e :: u2 ∧
        (fun c => !(c = ' ' || c = nl)) e = false := by
      rcases hu with rfl | ⟨e, u2, rfl, he⟩
      · exact Or.inl rfl
      · refine Or.inr ⟨e, u2, rfl, ?_⟩
        rcases he with rfl | rfl <;> simp
    have htw : (cl.drop (i + epKey.length)).takeWhile
        (fun c => !(c = ' ' || c = nl)) = v := by
      rw [hvu]
      exact takeWhile_eq_of_split _ v u hp hu2
    have heq : read_entrypoint cl bs = finishValue v bs := by
      simp only [read_entrypoint, hf]
      rw [if_neg hq, htw]
    rw [heq]
    rfl

/-- C3 witness: a command line without the marker is `notFound`; an
unquoted value delimited by a space is extracted successfully. -/
theorem read_entrypoint_cases_witness :
    read_entrypoint "quiet splash".data 4096 = .error .notFound
    ∧ read_entrypoint "kerf.entrypoint=/bin/sh quiet".data 4096 =
        .ok "/bin/sh".data := by
  have h1 := (read_entrypoint_cases "quiet splash".data 4096).1
  have h3 := (read_entrypoint_cases "kerf.entrypoint=/bin/sh quiet".data
    4096).2.2
  constructor
  · exact h1.mpr ((findSubstrIdx_eq_none_iff _ _).mp (by decide))
  · have := h3 0 (by decide) (by decide) "/bin/sh".data
      (' ' :: "quiet".data) (by decide) (by decide)
      (Or.inr ⟨' ', "quiet".data, rfl, Or.inl rfl⟩)
    exact this.trans (by rfl)

end Kerf
